import Mathlib

/-!
Formal model of the dual-tier memory manager implemented in `src/agent.py`
(classes `MemoryItem` and `MemorySystem`, lines 29-131).

Modelling conventions for the shallow embedding:
  - Python `float` scores are modelled as exact rationals (`Rat`);
  - `datetime.now()` is modelled by passing the current wall-clock time
    explicitly as a `Timestamp` argument to each mutating operation, the
    manager observes datetimes only through `strftime('%H:%M')` and the
    to-the-second ISO-8601 form used by persistence, so `Timestamp` keeps
    second granularity;
  - the JSON document stored in `memory_file` is modelled structurally by
    the inductive type `Json`; an unreadable or syntactically unparsable
    store is modelled as the `none` case of `Option Json`;
  - Python `try/except` recovery becomes `Option`-valued parsing: any
    exception inside `_load_memory`'s list comprehension aborts the whole
    load, which the model renders as `parseItems` returning `none`;
  - `_save_memory` has no effect on the in-memory state, so the state
    record omits the file and persistence is the pure function
    `saveMemory`; the constructor (`__init__` + `_load_memory`) is
    `mkMemorySystem`;
  - the `tags or []` normalisation of the `tags=None` default is resolved
    before the call: operations receive the already-normalised list.
-/

/-- Second-granularity wall-clock timestamp, the projection of a Python
`datetime` that the memory manager can observe (its `%H:%M` rendering and
its to-the-second ISO-8601 serialisation). -/
structure Timestamp where
  year : Nat
  month : Nat
  day : Nat
  hour : Nat
  minute : Nat
  second : Nat
deriving DecidableEq, Repr, Inhabited

/-- Gregorian leap-year rule, as used by Python's `datetime` validation. -/
def isLeapYear (y : Nat) : Bool :=
  (y % 4 == 0 && y % 100 != 0) || y % 400 == 0

/-- Length of a month, as enforced by the `datetime` constructor (and
hence by `fromisoformat`) when it validates the day field. -/
def daysInMonth (y m : Nat) : Nat :=
  if m = 2 then (if isLeapYear y then 29 else 28)
  else if m = 4 ∨ m = 6 ∨ m = 9 ∨ m = 11 then 30 else 31

/-- Field ranges guaranteed for every timestamp a Python `datetime` can
hold (`datetime.now()` or `datetime.fromisoformat` both go through the
constructor, which enforces exactly these bounds: `MINYEAR = 1`,
`MAXYEAR = 9999`, month 1-12, day 1 to the month's length, hour 0-23,
minute and second 0-59). -/
def Timestamp.wf (t : Timestamp) : Prop :=
  1 ≤ t.year ∧ t.year ≤ 9999 ∧ 1 ≤ t.month ∧ t.month ≤ 12 ∧ 1 ≤ t.day ∧
    t.day ≤ daysInMonth t.year t.month ∧ t.hour ≤ 23 ∧ t.minute ≤ 59 ∧ t.second ≤ 59

instance (t : Timestamp) : Decidable t.wf := by
  unfold Timestamp.wf; infer_instance

/-- The dataclass `MemoryItem` of `src/agent.py` lines 29-35. -/
structure MemoryItem where
  timestamp : Timestamp
  content : String
  importance : Rat
  tags : List String
deriving DecidableEq, Repr, Inhabited

/-- Fixed-width decimal rendering (width `k`, most significant digit
first), as produced by `strftime`/`isoformat` zero padding. -/
def padNum : Nat → Nat → List Char
  | 0, _ => []
  | k + 1, n => Nat.digitChar (n / 10 ^ k % 10) :: padNum k (n % 10 ^ k)

/-- Two-digit zero-padded rendering used by `strftime('%H:%M')`. -/
def pad2 (n : Nat) : List Char :=
  padNum 2 n

/-- The ISO-8601 string `datetime.isoformat()` produces for a timestamp
with zero microseconds: `YYYY-MM-DDTHH:MM:SS`. -/
def renderIso (t : Timestamp) : String :=
  String.mk (padNum 4 t.year ++ '-' :: (padNum 2 t.month ++ '-' :: (padNum 2 t.day
    ++ 'T' :: (padNum 2 t.hour ++ ':' :: (padNum 2 t.minute ++ ':' :: padNum 2 t.second)))))

/-- Consume exactly `k` decimal digits, extending the accumulator. -/
def parseFixedNat : Nat → Nat → List Char → Option (Nat × List Char)
  | acc, 0, cs => some (acc, cs)
  | _, _ + 1, [] => none
  | acc, k + 1, c :: cs =>
    if c.isDigit then parseFixedNat (acc * 10 + (c.toNat - 48)) k cs else none

/-- Consume one expected literal character. -/
def expectChar (c : Char) : List Char → Option (List Char)
  | [] => none
  | d :: cs => if d = c then some cs else none

/-- The time portion of `fromisoformat`'s grammar (CPython's
`parse_hh_mm_ss_ff`): two-digit hour, then optionally `:MM`, then
optionally `:SS`, then optionally a decimal point (or the comma some
versions accept) followed by one or more fraction digits. The
fraction's value is discarded at this model's second granularity
(Python keeps it as microseconds, which the memory manager only ever
re-serialises). Where CPython versions disagree on the fraction shape
(3.10 demands exactly three or six digits, 3.11 takes any positive
count), the model sides with acceptance, so that its failure set
under-approximates every supported interpreter's raise set, the
direction `load_failure_yields_empty` needs. -/
def parseTimePart (cs : List Char) : Option (Nat × Nat × Nat) := do
  let (hh, r1) ← parseFixedNat 0 2 cs
  match r1 with
  | [] => some (hh, 0, 0)
  | c :: r2 =>
    if c = ':' then do
      let (mi, r3) ← parseFixedNat 0 2 r2
      match r3 with
      | [] => some (hh, mi, 0)
      | c2 :: r4 =>
        if c2 = ':' then do
          let (se, r5) ← parseFixedNat 0 2 r4
          match r5 with
          | [] => some (hh, mi, se)
          | c3 :: frac =>
            if (c3 = '.' ∨ c3 = ',') ∧ 1 ≤ frac.length ∧ frac.all Char.isDigit
            then some (hh, mi, se) else none
        else none
    else none

/-- The model of `datetime.fromisoformat` restricted to timezone-naive
timestamps: the documented inverse of `datetime.isoformat()`, which is
everything `_save_memory` can ever write (`datetime.now()` is naive).
Grammar, following CPython's C implementation: `YYYY-MM-DD`, then either
end of input (midnight) or one separator character (ignored: CPython
slices it off without inspecting it) followed by `HH[:MM[:SS[.digits]]]`
per `parseTimePart`, with the constructor's range validation (year
1-9999, month 1-12, day bounded by the month's length with leap years,
hour at most 23, minute and second at most 59). Timezone-offset
suffixes (which the manager never writes) and version-specific grammar
extensions such as Python 3.11's basic-format dates are outside the
modelled grammar and fail here. -/
def parseIso (s : String) : Option Timestamp := do
  let (y, r1) ← parseFixedNat 0 4 s.data
  let r2 ← expectChar '-' r1
  let (mo, r3) ← parseFixedNat 0 2 r2
  let r4 ← expectChar '-' r3
  let (d, r5) ← parseFixedNat 0 2 r4
  let (hh, mi, se) ←
    match r5 with
    | [] => some (0, 0, 0)
    | _ :: tstr => parseTimePart tstr
  if 1 ≤ y ∧ 1 ≤ mo ∧ mo ≤ 12 ∧ 1 ≤ d ∧ d ≤ daysInMonth y mo ∧
      hh ≤ 23 ∧ mi ≤ 59 ∧ se ≤ 59
  then some ⟨y, mo, d, hh, mi, se⟩ else none

/-- Structural model of the JSON documents read from and written to
`memory_file`. -/
inductive Json where
  | null
  | bool (b : Bool)
  | num (q : Rat)
  | str (s : String)
  | arr (elems : List Json)
  | obj (fields : List (String × Json))

/-- Extract a JSON string, failing on any other shape. -/
def Json.asStr : Json → Option String
  | .str s => some s
  | _ => none

/-- Extract a JSON number, failing on any other shape. -/
def Json.asNum : Json → Option Rat
  | .num q => some q
  | _ => none

/-- Extract a JSON array, failing on any other shape. -/
def Json.asArr : Json → Option (List Json)
  | .arr xs => some xs
  | _ => none

/-- Dictionary access `item[key]`: `KeyError` on a missing key and
`TypeError` on a non-object both become `none`. -/
def Json.getField : Json → String → Option Json
  | .obj fs, k => fs.lookup k
  | _, _ => none

/-- Decode a JSON array of strings elementwise. -/
def strListAux : List Json → Option (List String)
  | [] => some []
  | j :: js =>
    match j.asStr, strListAux js with
    | some s, some ss => some (s :: ss)
    | _, _ => none

/-- Extract a JSON array of strings (the `tags` field of a record). -/
def Json.asStrList : Json → Option (List String)
  | .arr xs => strListAux xs
  | _ => none

/-- Decode one persisted record into a `MemoryItem`, the body of the
list comprehension in `_load_memory` (lines 104-112), restricted to the
spec-shaped field types. The comprehension itself raises exactly when a
field access fails (non-object record or missing key), the `timestamp`
value is not a string (`fromisoformat` raises `TypeError`), or
`fromisoformat` rejects the string; that exact condition is
`recordRaises` below, and `parseItem` fails on all of it
(`parseItem_eq_none_of_raises`). Python performs no type validation on
`content`, `importance` and `tags`: a raise-free record carrying, say,
a string `importance` loads in Python as a dataclass instance holding
values outside its field annotations, a state the typed `MemoryItem`
cannot represent, so `parseItem` also fails on such records; no theorem
in this file quantifies over them (`load_failure_yields_empty` assumes
`recordRaises`, and the round trip only visits `itemToJson`-shaped
records). -/
def parseItem (j : Json) : Option MemoryItem := do
  let tsStr ← (j.getField "timestamp").bind Json.asStr
  let ts ← parseIso tsStr
  let content ← (j.getField "content").bind Json.asStr
  let importance ← (j.getField "importance").bind Json.asNum
  let tags ← (j.getField "tags").bind Json.asStrList
  some ⟨ts, content, importance, tags⟩

/-- Decode a whole persisted array: one failing record aborts the whole
comprehension, exactly like an exception thrown mid-comprehension. -/
def parseItems : List Json → Option (List MemoryItem)
  | [] => some []
  | j :: js =>
    match parseItem j, parseItems js with
    | some m, some ms => some (m :: ms)
    | _, _ => none

/-- Serialise one item as `_save_memory` does (lines 120-126). -/
def itemToJson (m : MemoryItem) : Json :=
  Json.obj [("timestamp", Json.str (renderIso m.timestamp)),
            ("content", Json.str m.content),
            ("importance", Json.num m.importance),
            ("tags", Json.arr (m.tags.map Json.str))]

/-- The document `_save_memory` writes for a given `long_term` list. -/
def saveMemory (l : List MemoryItem) : Json :=
  Json.arr (l.map itemToJson)

/-- The net effect of `_load_memory` on `long_term` at construction time:
a missing/unreadable/unparsable store or any failure inside the
comprehension is caught by the `except` clause and leaves `long_term` at
its initial value `[]`. On a store whose records raise nowhere but carry
field values outside the spec's types (see `parseItem`), the Python
result is outside the typed state space and this model also yields `[]`;
no theorem relies on that region. -/
def loadMemory (store : Option Json) : List MemoryItem :=
  match store with
  | none => []
  | some j =>
    match j.asArr with
    | none => []
    | some records =>
      match parseItems records with
      | some items => items
      | none => []

/-- The state of class `MemorySystem` (lines 38-46): capacity bound and
the two ordered collections. -/
structure MemorySystem where
  max_short_term : Nat
  short_term : List MemoryItem
  long_term : List MemoryItem
deriving DecidableEq, Repr

/-- The constructor `__init__` (lines 41-46): `short_term` starts empty
and `long_term` is hydrated from the persisted store. -/
def mkMemorySystem (maxShortTerm : Nat) (store : Option Json) : MemorySystem :=
  ⟨maxShortTerm, [], loadMemory store⟩

namespace MemorySystem

/-- Method `add_short_term` (lines 48-65): append the new item, then if
the buffer exceeds `max_short_term`, pop the oldest (index 0) and promote
it to `long_term` when its importance is at least 0.7. -/
def add_short_term (s : MemorySystem) (now : Timestamp) (content : String)
    (importance : Rat) (tags : List String) : MemorySystem :=
  let item : MemoryItem := ⟨now, content, importance, tags⟩
  let st := s.short_term ++ [item]
  if s.max_short_term < st.length then
    match st with
    | [] => { s with short_term := [] }
    | oldest :: rest =>
      if (7 : Rat) / 10 ≤ oldest.importance then
        { s with short_term := rest, long_term := s.long_term ++ [oldest] }
      else
        { s with short_term := rest }
  else
    { s with short_term := st }

/-- Method `add_long_term` (lines 67-76): append directly to `long_term`,
bypassing the short-term buffer. -/
def add_long_term (s : MemorySystem) (now : Timestamp) (content : String)
    (importance : Rat) (tags : List String) : MemorySystem :=
  { s with long_term := s.long_term ++ [⟨now, content, importance, tags⟩] }

end MemorySystem

/-- Python `str.lower()` as the memory manager uses it, per-character
case folding. -/
def lowerChars (cs : List Char) : List Char :=
  cs.map Char.toLower

/-- Python's substring containment `needle in hay` (an empty needle is
contained in everything). -/
def isSubstrOf (needle : List Char) : List Char → Bool
  | [] => needle.isEmpty
  | c :: t => needle.isPrefixOf (c :: t) || isSubstrOf needle t

/-- Helper for `str.split()`: accumulate the current token (reversed) and
split on whitespace runs, emitting no empty tokens. -/
def pySplitAux : List Char → List Char → List (List Char)
  | acc, [] => if acc.isEmpty then [] else [acc.reverse]
  | acc, c :: cs =>
    if c.isWhitespace then
      if acc.isEmpty then pySplitAux [] cs
      else acc.reverse :: pySplitAux [] cs
    else pySplitAux (c :: acc) cs

/-- Python `query.split()` with no separator argument: whitespace-run
tokenisation with empty tokens dropped. -/
def pySplit (s : String) : List (List Char) :=
  pySplitAux [] s.data

/-- The match predicate of `search_memory` (lines 83-85):
`any(word.lower() in mem.content.lower() for word in query.split())`. -/
def matchesQuery (query : String) (mem : MemoryItem) : Bool :=
  (pySplit query).any fun w => isSubstrOf (lowerChars w) (lowerChars mem.content.data)

/-- The comparison key of line 87: `a` may precede `b` when `a`'s
importance is at least `b`'s. -/
def impGE (a b : MemoryItem) : Prop :=
  b.importance ≤ a.importance

instance : DecidableRel impGE := fun a b =>
  inferInstanceAs (Decidable (b.importance ≤ a.importance))

instance : IsTotal MemoryItem impGE :=
  ⟨fun a b => (le_total a.importance b.importance).symm⟩

instance : IsTrans MemoryItem impGE :=
  ⟨fun _ _ _ hab hbc => le_trans hbc hab⟩

/-- The model of `sorted(relevant, key=lambda x: x.importance,
reverse=True)`: Python's sort is stable, and a stable descending sort is
exactly insertion sort with the reflexive descending comparison, an
earlier element stays before a later one of equal importance. -/
def sortByImportance (l : List MemoryItem) : List MemoryItem :=
  l.insertionSort impGE

namespace MemorySystem

/-- Method `search_memory` (lines 78-87): filter the concatenated
snapshot by the keyword predicate, stable-sort by descending importance,
truncate to `limit`. -/
def search_memory (s : MemorySystem) (query : String) (limit : Nat) : List MemoryItem :=
  (sortByImportance ((s.short_term ++ s.long_term).filter (matchesQuery query))).take limit

end MemorySystem

/-- One rendered context line (line 95): `f"[{ts:%H:%M}] {content}"`. -/
def renderContextLine (m : MemoryItem) : String :=
  "[" ++ String.mk (pad2 m.timestamp.hour) ++ ":" ++ String.mk (pad2 m.timestamp.minute)
    ++ "] " ++ m.content

/-- Python's tail slice `l[-limit:]`: for `limit = 0` this is `l[0:]`,
the whole list, not the empty suffix. -/
def pyTailSlice (limit : Nat) (l : List α) : List α :=
  if limit = 0 then l else l.drop (l.length - limit)

namespace MemorySystem

/-- Method `get_context` (lines 89-96): sentinel on an empty buffer,
otherwise the newline-join of the rendered tail slice. -/
def get_context (s : MemorySystem) (limit : Nat) : String :=
  if s.short_term.isEmpty then "No previous context."
  else String.intercalate "\n" ((pyTailSlice limit s.short_term).map renderContextLine)

end MemorySystem

/-- One mutating call on the manager, for stating state invariants over
arbitrary call sequences. -/
inductive MemOp where
  | addShort (now : Timestamp) (content : String) (importance : Rat) (tags : List String)
  | addLong (now : Timestamp) (content : String) (importance : Rat) (tags : List String)

/-- Apply one mutating call; `search_memory` and `get_context` are pure
observers and do not appear, they cannot change the state by type. -/
def applyOp (s : MemorySystem) : MemOp → MemorySystem
  | .addShort now content importance tags => s.add_short_term now content importance tags
  | .addLong now content importance tags => s.add_long_term now content importance tags

/-- A fixed, well-formed wall-clock instant used by concrete test states. -/
def exTs : Timestamp := ⟨2024, 5, 6, 7, 8, 9⟩

/-- A manager of capacity 1 whose buffer is full, so the next
`add_short_term` must evict. -/
def exEvictState : MemorySystem := ⟨1, [⟨exTs, "old", 9 / 10, []⟩], []⟩

/-- A manager holding six items that all match the query "a". -/
def cexSearchState : MemorySystem :=
  ⟨10, [],
   [⟨exTs, "a1", 1, []⟩, ⟨exTs, "a2", 1, []⟩, ⟨exTs, "a3", 1, []⟩,
    ⟨exTs, "a4", 1, []⟩, ⟨exTs, "a5", 1, []⟩, ⟨exTs, "a6", 1, []⟩]⟩

/-- A manager with a two-item short-term buffer. -/
def cexContextState : MemorySystem :=
  ⟨10, [⟨⟨2024, 1, 2, 3, 4, 5⟩, "x", 1, []⟩, ⟨⟨2024, 1, 2, 6, 7, 8⟩, "y", 1, []⟩], []⟩

/-- Unfolding helper: the capacity field is never written by
`add_short_term`. -/
theorem add_short_term_max_eq (s : MemorySystem) (now : Timestamp) (content : String)
    (importance : Rat) (tags : List String) :
    (s.add_short_term now content importance tags).max_short_term = s.max_short_term := by
  simp only [MemorySystem.add_short_term]
  split
  · split
    · rfl
    · split <;> rfl
  · rfl

/-- Unfolding helper: the capacity field is never written by
`add_long_term`. -/
theorem add_long_term_max_eq (s : MemorySystem) (now : Timestamp) (content : String)
    (importance : Rat) (tags : List String) :
    (s.add_long_term now content importance tags).max_short_term = s.max_short_term := rfl

/-- One `add_short_term` call preserves the capacity bound on the
short-term buffer. -/
theorem add_short_term_length_le (s : MemorySystem) (now : Timestamp) (content : String)
    (importance : Rat) (tags : List String)
    (h : s.short_term.length ≤ s.max_short_term) :
    (s.add_short_term now content importance tags).short_term.length ≤ s.max_short_term := by
  simp only [MemorySystem.add_short_term]
  split
  · split
    · simp
    · rename_i st hcond oldest rest hst
      have hlen : rest.length + 1 = s.short_term.length + 1 := by
        have := congrArg List.length hst
        simpa using this.symm
      split <;> · simp only []; omega
  · rename_i hcond
    simp only [List.length_append, List.length_cons, List.length_nil] at hcond ⊢
    omega

/-- The capacity field is constant along any sequence of operations. -/
theorem foldl_applyOp_max (ops : List MemOp) (s : MemorySystem) :
    (ops.foldl applyOp s).max_short_term = s.max_short_term := by
  induction ops generalizing s with
  | nil => rfl
  | cons op ops ih =>
    cases op with
    | addShort now content importance tags =>
      simp only [List.foldl_cons, applyOp, ih, add_short_term_max_eq]
    | addLong now content importance tags =>
      simp only [List.foldl_cons, applyOp, ih, add_long_term_max_eq]

/-- The capacity bound is preserved along any sequence of operations. -/
theorem foldl_applyOp_inv (ops : List MemOp) (s : MemorySystem)
    (h : s.short_term.length ≤ s.max_short_term) :
    ((ops.foldl applyOp s).short_term).length ≤ s.max_short_term := by
  induction ops generalizing s with
  | nil => exact h
  | cons op ops ih =>
    cases op with
    | addShort now content importance tags =>
      rw [List.foldl_cons]
      have h1 := add_short_term_length_le s now content importance tags h
      have h2 := add_short_term_max_eq s now content importance tags
      have := ih (applyOp s (.addShort now content importance tags)) (by rw [applyOp]; omega)
      rw [applyOp] at this ⊢
      omega
    | addLong now content importance tags =>
      rw [List.foldl_cons]
      exact ih _ h

/-- C2: for every capacity, every initial store and every sequence of
mutating calls on a manager constructed with that capacity, the
short-term buffer never exceeds the capacity after a call completes
(`add_long_term` and the pure observers trivially preserve it as well). -/
theorem short_term_capacity_invariant (maxST : Nat) (store : Option Json)
    (ops : List MemOp) :
    ((ops.foldl applyOp (mkMemorySystem maxST store)).short_term).length ≤ maxST := by
  have h := foldl_applyOp_inv ops (mkMemorySystem maxST store) (by simp [mkMemorySystem])
  simpa [mkMemorySystem] using h

/-- C1: whenever an `add_short_term` call overflows the buffer, exactly
the oldest element (index 0 of the appended buffer) is removed, it is
appended once at the end of `long_term` when its importance is at least
0.7, and the state is otherwise untouched, so a low-importance evictee
survives in neither collection. -/
theorem add_short_term_evicts_oldest (s : MemorySystem) (now : Timestamp)
    (content : String) (importance : Rat) (tags : List String)
    (h : s.max_short_term < s.short_term.length + 1) :
    (s.add_short_term now content importance tags).short_term
        = (s.short_term ++ [(⟨now, content, importance, tags⟩ : MemoryItem)]).tail ∧
    ((7 : Rat) / 10 ≤ ((s.short_term ++ [(⟨now, content, importance, tags⟩ : MemoryItem)]).headI).importance →
      (s.add_short_term now content importance tags).long_term
        = s.long_term ++ [(s.short_term ++ [(⟨now, content, importance, tags⟩ : MemoryItem)]).headI]) ∧
    (((s.short_term ++ [(⟨now, content, importance, tags⟩ : MemoryItem)]).headI).importance < (7 : Rat) / 10 →
      (s.add_short_term now content importance tags).long_term = s.long_term) := by
  have hcond : s.max_short_term < (s.short_term ++ [(⟨now, content, importance, tags⟩ : MemoryItem)]).length := by
    simp only [List.length_append, List.length_cons, List.length_nil]
    omega
  simp only [MemorySystem.add_short_term]
  rw [if_pos hcond]
  cases hst : s.short_term ++ [(⟨now, content, importance, tags⟩ : MemoryItem)] with
  | nil => exact absurd hst (by simp)
  | cons oldest rest =>
    simp only [List.headI, List.tail_cons]
    by_cases himp : (7 : Rat) / 10 ≤ oldest.importance
    · rw [if_pos himp]
      refine ⟨rfl, fun _ => rfl, fun hlt => absurd himp (not_le.mpr hlt)⟩
    · rw [if_neg himp]
      exact ⟨rfl, fun hle => absurd hle himp, fun _ => rfl⟩

/-- C1 witness: a full capacity-1 buffer holding an importance-0.9 item
receiving a new item evicts the old one into long-term memory. -/
theorem add_short_term_evicts_oldest_witness :
    (exEvictState.max_short_term < exEvictState.short_term.length + 1) ∧
    ((exEvictState.add_short_term exTs "new" 1 []).short_term
        = (exEvictState.short_term ++ [(⟨exTs, "new", 1, []⟩ : MemoryItem)]).tail ∧
    ((7 : Rat) / 10 ≤ ((exEvictState.short_term ++ [(⟨exTs, "new", 1, []⟩ : MemoryItem)]).headI).importance →
      (exEvictState.add_short_term exTs "new" 1 []).long_term
        = exEvictState.long_term ++ [(exEvictState.short_term ++ [(⟨exTs, "new", 1, []⟩ : MemoryItem)]).headI]) ∧
    (((exEvictState.short_term ++ [(⟨exTs, "new", 1, []⟩ : MemoryItem)]).headI).importance < (7 : Rat) / 10 →
      (exEvictState.add_short_term exTs "new" 1 []).long_term = exEvictState.long_term)) :=
  ⟨by decide, add_short_term_evicts_oldest exEvictState exTs "new" 1 [] (by decide)⟩

/-- C9: `add_long_term` appends exactly one item carrying the given
content, importance and tags at the end of `long_term`, and leaves the
short-term buffer and the capacity unchanged. -/
theorem add_long_term_appends_frame (s : MemorySystem) (now : Timestamp)
    (content : String) (importance : Rat) (tags : List String) :
    (s.add_long_term now content importance tags).long_term
        = s.long_term ++ [⟨now, content, importance, tags⟩] ∧
    (s.add_long_term now content importance tags).short_term = s.short_term ∧
    (s.add_long_term now content importance tags).max_short_term = s.max_short_term :=
  ⟨rfl, rfl, rfl⟩

/-- C10: every mutating operation leaves the previous `long_term` as a
prefix of the new one; `search_memory` and `get_context` are pure
observers in the model and cannot mutate at all. -/
theorem long_term_append_only (s : MemorySystem) (op : MemOp) :
    s.long_term <+: (applyOp s op).long_term := by
  cases op with
  | addShort now content importance tags =>
    simp only [applyOp, MemorySystem.add_short_term]
    split
    · split
      · exact List.prefix_rfl
      · split
        · exact List.prefix_append _ _
        · exact List.prefix_rfl
    · exact List.prefix_rfl
  | addLong now content importance tags =>
    exact List.prefix_append _ _

/-- Tokenising an all-whitespace character list produces no tokens. -/
theorem pySplitAux_nil_of_ws (cs : List Char) (h : ∀ c ∈ cs, c.isWhitespace = true) :
    pySplitAux [] cs = [] := by
  induction cs with
  | nil => rfl
  | cons c cs ih =>
    have hc : c.isWhitespace = true := h c (List.mem_cons_self c cs)
    simp only [pySplitAux, hc, if_true, List.isEmpty_nil]
    exact ih fun d hd => h d (List.mem_cons_of_mem c hd)

/-- A query with no tokens matches nothing. -/
theorem matchesQuery_false_of_ws (query : String)
    (h : ∀ c ∈ query.data, c.isWhitespace = true) (m : MemoryItem) :
    matchesQuery query m = false := by
  unfold matchesQuery pySplit
  rw [pySplitAux_nil_of_ws query.data h]
  rfl

/-- C8: an empty query, or one consisting only of whitespace, makes
`search_memory` return the empty sequence on every state and limit. -/
theorem search_memory_whitespace_query (s : MemorySystem) (query : String) (limit : Nat)
    (h : ∀ c ∈ query.data, c.isWhitespace = true) :
    s.search_memory query limit = [] := by
  unfold MemorySystem.search_memory
  have hfil : (s.short_term ++ s.long_term).filter (matchesQuery query) = [] :=
    List.filter_eq_nil_iff.mpr fun a _ => by simp [matchesQuery_false_of_ws query h a]
  rw [hfil]
  simp [sortByImportance]

/-- C8 witness: the single-space query on a populated manager. -/
theorem search_memory_whitespace_query_witness :
    (∀ c ∈ (" " : String).data, c.isWhitespace = true) ∧
    cexContextState.search_memory " " 5 = [] :=
  ⟨by decide, search_memory_whitespace_query cexContextState " " 5 (by decide)⟩

/-- C3 counterexample: with six items matching the query "a" and the
default limit 5, the sixth match is a candidate whose content matches
but which is absent from the returned sequence, so the result is not
"exactly those items" that match. -/
theorem search_memory_not_all_matches :
    ((⟨exTs, "a6", 1, []⟩ : MemoryItem) ∈ cexSearchState.short_term ++ cexSearchState.long_term) ∧
    matchesQuery "a" ⟨exTs, "a6", 1, []⟩ = true ∧
    ((⟨exTs, "a6", 1, []⟩ : MemoryItem) ∉ cexSearchState.search_memory "a" 5) := by
  decide

/-- C3 amended: the sequence `search_memory` returns is the first
`limit` entries of the stable descending-importance sort of exactly
those candidates (short-term followed by long-term) whose content
contains, case-insensitively, at least one whitespace-delimited token of
the query as a substring; the tags of an item are never consulted by the
match. -/
theorem search_memory_matches_characterization (s : MemorySystem) (query : String)
    (limit : Nat) :
    s.search_memory query limit
        = (sortByImportance ((s.short_term ++ s.long_term).filter (matchesQuery query))).take
            limit ∧
    (∀ m, m ∈ sortByImportance ((s.short_term ++ s.long_term).filter (matchesQuery query))
        ↔ (m ∈ s.short_term ++ s.long_term ∧ matchesQuery query m = true)) ∧
    (∀ m tags2,
      matchesQuery query ⟨m.timestamp, m.content, m.importance, tags2⟩
        = matchesQuery query m) := by
  refine ⟨rfl, fun m => ?_, fun m tags2 => rfl⟩
  rw [sortByImportance, List.mem_insertionSort, List.mem_filter]

/-- Inserting an element into a list touches the occurrences of no other
importance value, and prepends the element to the occurrences of its
own importance value: the passed-over elements all have strictly larger
importance. -/
theorem filter_imp_orderedInsert (v : Rat) (a : MemoryItem) (l : List MemoryItem) :
    (l.orderedInsert impGE a).filter (fun m => decide (m.importance = v))
      = if a.importance = v
        then a :: l.filter (fun m => decide (m.importance = v))
        else l.filter (fun m => decide (m.importance = v)) := by
  induction l with
  | nil =>
    by_cases ha : a.importance = v <;> simp [List.orderedInsert, ha]
  | cons b l ih =>
    rw [List.orderedInsert]
    by_cases hab : impGE a b
    · rw [if_pos hab]
      by_cases ha : a.importance = v <;> simp [List.filter_cons, ha]
    · rw [if_neg hab]
      have hlt : a.importance < b.importance := not_le.mp hab
      by_cases ha : a.importance = v
      · have hb : ¬ b.importance = v := by
          intro he
          rw [he, ← ha] at hlt
          exact absurd hlt (lt_irrefl _)
        simp [List.filter_cons, ha, hb, ih]
      · by_cases hb : b.importance = v <;> simp [List.filter_cons, ha, hb, ih]

/-- Stability of the sort: for every importance value, the subsequence
of the sorted output carrying that value is the subsequence of the input
carrying that value, in the original order. -/
theorem filter_imp_insertionSort (v : Rat) (l : List MemoryItem) :
    (l.insertionSort impGE).filter (fun m => decide (m.importance = v))
      = l.filter (fun m => decide (m.importance = v)) := by
  induction l with
  | nil => rfl
  | cons a l ih =>
    rw [List.insertionSort, filter_imp_orderedInsert, ih, List.filter_cons]
    by_cases ha : a.importance = v <;> simp [ha]

/-- C4: the result of `search_memory` is the first `limit` entries of
the sorted match sequence; that sequence is pairwise non-increasing in
importance, and for every importance value the matches carrying it keep
exactly the relative order they had in the short-term-then-long-term
candidate sequence (stability). -/
theorem search_memory_sorted_stable_truncated (s : MemorySystem) (query : String)
    (limit : Nat) :
    s.search_memory query limit
        = (sortByImportance ((s.short_term ++ s.long_term).filter (matchesQuery query))).take
            limit ∧
    List.Sorted impGE
      (sortByImportance ((s.short_term ++ s.long_term).filter (matchesQuery query))) ∧
    (∀ v : Rat,
      (sortByImportance ((s.short_term ++ s.long_term).filter (matchesQuery query))).filter
          (fun m => decide (m.importance = v))
        = ((s.short_term ++ s.long_term).filter (matchesQuery query)).filter
            (fun m => decide (m.importance = v))) :=
  ⟨rfl, List.sorted_insertionSort impGE _, fun v => filter_imp_insertionSort v _⟩

/-- C5 counterexample: at `limit = 0` the Python slice `short_term[-0:]`
is the whole buffer, so `get_context` renders every stored item instead
of the empty newline-join of "the last 0 items". -/
theorem get_context_limit_zero_all_items :
    cexContextState.get_context 0 = "[03:04] x\n[06:07] y" ∧
    ¬ cexContextState.get_context 0 = "" := by
  refine ⟨by decide, by decide⟩

/-- C5 amended: on an empty buffer `get_context` returns the sentinel;
otherwise, for every positive limit, it returns the last `limit` items
of `short_term` in stored order, rendered as `[HH:MM] content` lines and
newline-joined (at `limit = 0` it instead renders the whole buffer). -/
theorem get_context_spec (s : MemorySystem) (limit : Nat) (h : 1 ≤ limit) :
    s.get_context limit
      = if s.short_term = [] then "No previous context."
        else String.intercalate "\n"
          ((s.short_term.drop (s.short_term.length - limit)).map renderContextLine) := by
  unfold MemorySystem.get_context pyTailSlice
  have hlim : ¬ limit = 0 := by omega
  rw [if_neg hlim]
  by_cases hst : s.short_term = []
  · simp [hst]
  · simp [hst, List.isEmpty_iff]

/-- C5 witness: the two-item buffer at limit 1 keeps only the newest
line. -/
theorem get_context_spec_witness :
    (1 ≤ 1) ∧
    (cexContextState.get_context 1
      = if cexContextState.short_term = [] then "No previous context."
        else String.intercalate "\n"
          ((cexContextState.short_term.drop (cexContextState.short_term.length - 1)).map
            renderContextLine)) :=
  ⟨Nat.le_refl 1, get_context_spec cexContextState 1 (Nat.le_refl 1)⟩

/-- Rendering a digit below ten yields a decimal digit character. -/
theorem digitChar_isDigit (d : Nat) (h : d < 10) : (Nat.digitChar d).isDigit = true := by
  interval_cases d <;> decide

/-- Code of a digit character recovers the digit. -/
theorem digitChar_toNat (d : Nat) (h : d < 10) : (Nat.digitChar d).toNat = 48 + d := by
  interval_cases d <;> decide

/-- Parsing inverts fixed-width zero-padded rendering, for any
accumulator and any trailing input. -/
theorem parseFixedNat_padNum (k : Nat) :
    ∀ (acc n : Nat) (rest : List Char), n < 10 ^ k →
      parseFixedNat acc k (padNum k n ++ rest) = some (acc * 10 ^ k + n, rest) := by
  induction k with
  | zero =>
    intro acc n rest h
    have hn : n = 0 := Nat.lt_one_iff.mp (by simpa using h)
    simp [padNum, parseFixedNat, hn]
  | succ k ih =>
    intro acc n rest h
    have h10 : (0 : Nat) < 10 ^ k := pow_pos (by norm_num) k
    have hd : n / 10 ^ k % 10 < 10 := Nat.mod_lt _ (by norm_num)
    rw [padNum, List.cons_append, parseFixedNat, digitChar_isDigit _ hd, if_pos rfl,
      digitChar_toNat _ hd]
    have h48 : 48 + n / 10 ^ k % 10 - 48 = n / 10 ^ k % 10 := by omega
    rw [h48, ih _ _ rest (Nat.mod_lt _ h10)]
    have hdiv : n / 10 ^ k < 10 := by
      apply Nat.div_lt_of_lt_mul
      rw [← pow_succ]
      exact h
    have hdeq : n / 10 ^ k % 10 = n / 10 ^ k := Nat.mod_eq_of_lt hdiv
    rw [hdeq]
    have harith : (acc * 10 + n / 10 ^ k) * 10 ^ k + n % 10 ^ k = acc * 10 ^ (k + 1) + n := by
      calc (acc * 10 + n / 10 ^ k) * 10 ^ k + n % 10 ^ k
          = acc * (10 ^ k * 10) + (10 ^ k * (n / 10 ^ k) + n % 10 ^ k) := by ring
        _ = acc * (10 ^ k * 10) + n := by rw [Nat.div_add_mod]
        _ = acc * 10 ^ (k + 1) + n := by rw [pow_succ]
    rw [harith]

/-- Two-digit instance of the parse/render inverse. -/
theorem parseFixedNat_padNum2 (n : Nat) (rest : List Char) (h : n < 100) :
    parseFixedNat 0 2 (padNum 2 n ++ rest) = some (n, rest) := by
  have := parseFixedNat_padNum 2 0 n rest (by simpa using h)
  simpa using this

/-- Four-digit instance of the parse/render inverse. -/
theorem parseFixedNat_padNum4 (n : Nat) (rest : List Char) (h : n < 10000) :
    parseFixedNat 0 4 (padNum 4 n ++ rest) = some (n, rest) := by
  have := parseFixedNat_padNum 4 0 n rest (by simpa using h)
  simpa using this

/-- Consuming the separator it expects succeeds. -/
theorem expectChar_cons_self (c : Char) (rest : List Char) :
    expectChar c (c :: rest) = some rest := by
  simp [expectChar]

/-- Every month length is at most 31. -/
theorem daysInMonth_le_31 (y m : Nat) : daysInMonth y m ≤ 31 := by
  unfold daysInMonth
  split
  · split <;> omega
  · split <;> omega

/-- Parsing inverts ISO-8601 rendering on well-formed timestamps. -/
theorem parseIso_renderIso (t : Timestamp) (h : t.wf) : parseIso (renderIso t) = some t := by
  obtain ⟨hy1, hy2, hm1, hm2, hd1, hd2, hhr, hmin, hsec⟩ := h
  have hdm := daysInMonth_le_31 t.year t.month
  unfold parseIso renderIso
  dsimp only
  rw [parseFixedNat_padNum4 t.year _ (by omega)]
  simp only [Option.bind_eq_bind, Option.some_bind]
  rw [expectChar_cons_self]
  simp only [Option.some_bind]
  rw [parseFixedNat_padNum2 t.month _ (by omega)]
  simp only [Option.some_bind]
  rw [expectChar_cons_self]
  simp only [Option.some_bind]
  rw [parseFixedNat_padNum2 t.day _ (by omega)]
  simp only [Option.some_bind]
  unfold parseTimePart
  rw [parseFixedNat_padNum2 t.hour _ (by omega)]
  simp only [Option.bind_eq_bind, Option.some_bind, eq_self_iff_true, if_true]
  rw [parseFixedNat_padNum2 t.minute _ (by omega)]
  simp only [Option.some_bind, eq_self_iff_true, if_true]
  rw [show padNum 2 t.second = padNum 2 t.second ++ [] from (List.append_nil _).symm,
    parseFixedNat_padNum2 t.second _ (by omega)]
  simp only [Option.some_bind]
  rw [if_pos ⟨hy1, hm1, hm2, hd1, hd2, hhr, hmin, hsec⟩]

/-- Decoding inverts string-list serialisation. -/
theorem strListAux_map_str (l : List String) : strListAux (l.map Json.str) = some l := by
  induction l with
  | nil => rfl
  | cons s l ih => simp [strListAux, Json.asStr, ih]

/-- Decoding inverts record serialisation for a single item. -/
theorem parseItem_itemToJson (m : MemoryItem) (h : m.timestamp.wf) :
    parseItem (itemToJson m) = some m := by
  have h1 : (itemToJson m).getField "timestamp" = some (Json.str (renderIso m.timestamp)) := rfl
  have h2 : (itemToJson m).getField "content" = some (Json.str m.content) := rfl
  have h3 : (itemToJson m).getField "importance" = some (Json.num m.importance) := rfl
  have h4 : (itemToJson m).getField "tags" = some (Json.arr (m.tags.map Json.str)) := rfl
  unfold parseItem
  rw [h1, h2, h3, h4]
  simp only [Json.asStr, Json.asNum, Json.asStrList, Option.some_bind, Option.bind_eq_bind]
  rw [parseIso_renderIso m.timestamp h]
  simp only [Option.some_bind]
  rw [strListAux_map_str]
  rfl

/-- Decoding inverts serialisation record by record. -/
theorem parseItems_map (items : List MemoryItem) (h : ∀ m ∈ items, m.timestamp.wf) :
    parseItems (items.map itemToJson) = some items := by
  induction items with
  | nil => rfl
  | cons m items ih =>
    simp only [List.map_cons, parseItems]
    rw [parseItem_itemToJson m (h m (List.mem_cons_self m items)),
      ih fun x hx => h x (List.mem_cons_of_mem m hx)]

/-- C6: persisting a `long_term` sequence with `_save_memory` and
constructing a new manager from that store reproduces the sequence
exactly, content, importance, tags and to-the-second timestamp alike;
the hypothesis records only the field ranges every Python `datetime`
satisfies. -/
theorem load_save_round_trip (maxST : Nat) (items : List MemoryItem)
    (h : ∀ m ∈ items, m.timestamp.wf) :
    (mkMemorySystem maxST (some (saveMemory items))).long_term = items := by
  unfold mkMemorySystem loadMemory saveMemory
  simp only [Json.asArr]
  rw [parseItems_map items h]

/-- C6 witness: a one-item archive survives the round trip. -/
theorem load_save_round_trip_witness :
    (∀ m ∈ [(⟨exTs, "note", 9 / 10, ["t"]⟩ : MemoryItem)], m.timestamp.wf) ∧
    (mkMemorySystem 10 (some (saveMemory [(⟨exTs, "note", 9 / 10, ["t"]⟩ : MemoryItem)]))).long_term
        = [(⟨exTs, "note", 9 / 10, ["t"]⟩ : MemoryItem)] :=
  ⟨by decide, load_save_round_trip 10 [⟨exTs, "note", 9 / 10, ["t"]⟩] (by decide)⟩

/-- The modelled parser accepts the microsecond form `_save_memory`
itself writes (`datetime.now().isoformat()`), truncating to seconds. -/
theorem parseIso_accepts_microseconds :
    parseIso "2024-05-06T07:08:09.123456" = some ⟨2024, 5, 6, 7, 8, 9⟩ := by decide

/-- The modelled parser accepts a bare date, as `fromisoformat` does,
reading it as midnight. -/
theorem parseIso_accepts_date_only :
    parseIso "2024-05-06" = some ⟨2024, 5, 6, 0, 0, 0⟩ := by decide

/-- The modelled parser performs the constructor's range validation:
digit-shaped but out-of-range components are rejected, as
`fromisoformat` rejects them with `ValueError`. -/
theorem parseIso_rejects_out_of_range :
    parseIso "2024-13-40T25:61:61" = none ∧ parseIso "2024-02-30T00:00:00" = none := by
  refine ⟨by decide, by decide⟩

